import Mathlib

/-!
Verification of the `web_delta` task-execution engine
(`src/web_delta/web_delta.py`) against its natural-language specification.

The Python code is shallowly embedded:

* Python `None` is `Option.none`; an extractor is a pure function
  `String → Option V`.
* The in-memory cache `self.cache` is a Python `dict` keyed by
  `(url, func.__name__)`.  A `dict` is modelled as an association list with
  insertion-order semantics: updating an existing key keeps its position,
  a new key is appended at the end (`dictSet`), and lookup reads the first
  matching entry (`dictGet`).  `dict.get` returns `None` for a missing key,
  so `cacheGet` flattens `Option (Option V)` to `Option V`.
* The filesystem seen by `pickle`/`os.remove` is a mapping from file names
  to stored cache contents (`Fs`).
* The HTTP transport is an oracle `fetchAt : Nat → Except Unit String`
  giving, for each attempt index of a task within one cycle, either the
  fetched text or a transport failure (`aiohttp` exception).  `get_new`
  takes `Url → Nat → Except Unit String` so different tasks may see
  different pages.  `asyncio.gather` without `return_exceptions` is
  embedded as a sequential fold in the `Except` monad: the first failing
  task's exception propagates out of the cycle.
* `await asyncio.sleep d` is recorded in an explicit trace of sleep
  durations; the number of fetches performed is likewise returned.
-/

set_option autoImplicit false

namespace WebDelta

abbrev Url := String

abbrev FuncName := String

abbrev CKey := Url × FuncName

/-- `self.cache`: a Python dict from `(url, func.__name__)` to the stored
value.  The stored value has type `Option V` because a Python dict cell can
in principle hold `None`; the code's guard is what keeps `none` out. -/
abbrev Cache (V : Type) := List (CKey × Option V)

/-- The filesystem: file name ↦ pickled cache contents. -/
abbrev Fs (V : Type) := List (String × Cache V)

/-- Lookup in a Python dict modelled as an association list. -/
def dictGet {K A : Type} [DecidableEq K] : List (K × A) → K → Option A
  | [], _ => none
  | p :: ps, k => if p.1 = k then some p.2 else dictGet ps k

/-- `k in d` for a Python dict. -/
def dictHas {K A : Type} [DecidableEq K] : List (K × A) → K → Bool
  | [], _ => false
  | p :: ps, k => if p.1 = k then true else dictHas ps k

/-- `d[k] = v` for a Python dict: updating an existing key keeps its
position, a new key is appended (Python 3.7+ insertion order). -/
def dictSet {K A : Type} [DecidableEq K] : List (K × A) → K → A → List (K × A)
  | [], k, v => [(k, v)]
  | p :: ps, k, v => if p.1 = k then (k, v) :: ps else p :: dictSet ps k v

/-- `del d[k]` / file removal. -/
def dictRemove {K A : Type} [DecidableEq K] : List (K × A) → K → List (K × A)
  | [], _ => []
  | p :: ps, k => if p.1 = k then ps else p :: dictRemove ps k

/-- `class RateLimit`: four plain duration fields. -/
structure RateLimit where
  seconds : Nat
  minutes : Nat
  hours : Nat
  days : Nat

/-- `Task = namedtuple('Task', ['url', 'func'])`; `funcName` is the Python
`func.__name__` used as the cache-key component. -/
structure Task (V : Type) where
  url : Url
  funcName : FuncName
  func : String → Option V

/-- The state of a `WebDelta` instance. -/
structure Engine (V : Type) where
  tasks : List (Task V)
  retry_limit : Nat
  wait_between_retries : Bool
  cache_file : Option String
  rate_limit : Nat
  cache : Cache V

variable {V : Type} [DecidableEq V]

/-- `self.cache.get((url, func.__name__))`: `dict.get` returns `None` both
for a missing key and for a stored `None`. -/
def cacheGet (c : Cache V) (k : CKey) : Option V :=
  (dictGet c k).getD none

/-- The rate-limit computation in `WebDelta.__init__`:
`rate_limit.seconds + 60*minutes + 3600*hours + 3600*24*days`, defaulting
to 60 seconds when no `RateLimit` is given. -/
def rateLimitSeconds : Option RateLimit → Nat
  | none => 60
  | some rl => rl.seconds + 60 * rl.minutes + 3600 * rl.hours + 3600 * 24 * rl.days

/-- `WebDelta.read_cache_file`: load the pickled cache if the file is
configured and present; a missing file is silently ignored. -/
def read_cache_file (eng : Engine V) (fs : Fs V) : Engine V :=
  match eng.cache_file with
  | none => eng
  | some p =>
    match dictGet fs p with
    | some c => { eng with cache := c }
    | none => eng

/-- `WebDelta.update_cache_file`: pickle the cache to the configured file;
no-op when no file is configured. -/
def update_cache_file (eng : Engine V) (fs : Fs V) : Fs V :=
  match eng.cache_file with
  | none => fs
  | some p => dictSet fs p eng.cache

/-- `WebDelta.__init__`: store the options, compute the rate limit, start
with an empty cache and read the cache file. -/
def initEngine (rate_limit : Option RateLimit) (retry_limit : Nat)
    (wait_between_retries : Bool) (cache_file : Option String) (fs : Fs V) :
    Engine V :=
  read_cache_file
    { tasks := []
      retry_limit := retry_limit
      wait_between_retries := wait_between_retries
      cache_file := cache_file
      rate_limit := rateLimitSeconds rate_limit
      cache := [] } fs

/-- `WebDelta.register`: append a task, no deduplication. -/
def register (eng : Engine V) (url : Url) (funcName : FuncName)
    (func : String → Option V) : Engine V :=
  { eng with tasks := eng.tasks ++ [Task.mk url funcName func] }

/-- Python exceptions that `clear_tasks` can meet. -/
inductive PyError where
  | typeError
  | fileNotFoundError
  deriving DecidableEq

/-- `os.remove(path)`: raises `TypeError` when `path` is `None` and
`FileNotFoundError` when the file does not exist. -/
def osRemove (path : Option String) (fs : Fs V) : Except PyError (Fs V) :=
  match path with
  | none => .error .typeError
  | some p => if dictHas fs p then .ok (dictRemove fs p) else .error .fileNotFoundError

/-- `WebDelta.clear_tasks`: clear the task list, `os.remove` the cache file
catching only `FileNotFoundError`, then reset the in-memory cache.  The
returned `Except` is the exception escaping the call; the engine and
filesystem components are the state after the call (Python mutations before
an uncaught exception persist). -/
def clear_tasks (eng : Engine V) (fs : Fs V) :
    Except PyError Unit × Engine V × Fs V :=
  let eng1 := { eng with tasks := ([] : List (Task V)) }
  match osRemove eng1.cache_file fs with
  | .ok fs' => (.ok (), { eng1 with cache := [] }, fs')
  | .error .fileNotFoundError => (.ok (), { eng1 with cache := [] }, fs)
  | .error e => (.error e, eng1, fs)

/-- The retry loop of `WebDelta._execute`:
`while live_version is None and retries > 0`.  Arguments: current attempt
index (the initial fetch was attempt 0), remaining `retries`, current
`live_version`.  Returns the final `live_version`, the trace of
`asyncio.sleep` durations, and the number of re-fetches performed. -/
def attemptLoop (fetchAt : Nat → Except Unit String) (func : String → Option V)
    (rl : Nat) (w : Bool) :
    Nat → Nat → Option V → Except Unit (Option V × List Nat × Nat)
  | _, 0, live => .ok (live, [], 0)
  | attempt, r + 1, live =>
    match live with
    | some v => .ok (some v, [], 0)
    | none =>
      match fetchAt attempt with
      | .error e => .error e
      | .ok s =>
        match attemptLoop fetchAt func rl w (attempt + 1) r (func s) with
        | .error e => .error e
        | .ok (res, sleeps, m) =>
          .ok (res, (if w then [rl - (r + 1)] else []) ++ sleeps, m + 1)

/-- `WebDelta._execute` for one task: fetch, read the cached version,
extract, retry while absent, then compare and possibly update the cache.
Returns the scrape result, the cache after the call, the sleep trace and
the number of fetches performed.  A transport failure propagates. -/
def execute (fetchAt : Nat → Except Unit String) (rl : Nat) (w : Bool)
    (t : Task V) (cache : Cache V) :
    Except Unit ((Url × Option V) × Cache V × List Nat × Nat) :=
  match fetchAt 0 with
  | .error e => .error e
  | .ok html =>
    let cached := cacheGet cache (t.url, t.funcName)
    match attemptLoop fetchAt t.func rl w 1 rl (t.func html) with
    | .error e => .error e
    | .ok (live, sleeps, m) =>
      if live ≠ cached ∧ live ≠ none then
        .ok ((t.url, live), dictSet cache (t.url, t.funcName) live, sleeps, m + 1)
      else
        .ok ((t.url, none), cache, sleeps, m + 1)

/-- The final `live_version` a task's fetch-extract-retry would produce,
independent of the cache (the retry loop never consults the cache). -/
def liveResult (fetchAt : Nat → Except Unit String) (func : String → Option V)
    (rl : Nat) (w : Bool) : Except Unit (Option V) :=
  match fetchAt 0 with
  | .error e => .error e
  | .ok html =>
    match attemptLoop fetchAt func rl w 1 rl (func html) with
    | .error e => .error e
    | .ok (live, _, _) => .ok live

/-- `asyncio.gather(*futures)` without `return_exceptions`, embedded as a
sequential fold: tasks run in registration order, each against the cache
left by its predecessors, and the first exception aborts the remaining
tasks and propagates.  The cache component is the in-memory cache after
the completed units (mutations survive the exception). -/
def runTasks (fetchAt : Url → Nat → Except Unit String) (rl : Nat) (w : Bool) :
    List (Task V) → Cache V → Except Unit (List (Url × Option V)) × Cache V
  | [], cache => (.ok [], cache)
  | t :: ts, cache =>
    match execute (fetchAt t.url) rl w t cache with
    | .error e => (.error e, cache)
    | .ok (r, cache', _, _) =>
      match runTasks fetchAt rl w ts cache' with
      | (.error e, c2) => (.error e, c2)
      | (.ok rs, c2) => (.ok (r :: rs), c2)

/-- `WebDelta.get_new`: run every registered task, drop the `None` results
(unchanged sites), and flush the cache file.  An exception from any task
propagates before the filter and the flush. -/
def get_new (fetchAt : Url → Nat → Except Unit String) (eng : Engine V)
    (fs : Fs V) : Except Unit (List (Url × Option V)) × Engine V × Fs V :=
  match runTasks fetchAt eng.retry_limit eng.wait_between_retries eng.tasks eng.cache with
  | (.error e, c) => (.error e, { eng with cache := c }, fs)
  | (.ok rs, c) =>
    let eng' := { eng with cache := c }
    (.ok (rs.filter fun x => x.2.isSome), eng', update_cache_file eng' fs)

/-- `WebDelta.get_all`: run `get_new` for freshness, then return the full
cache snapshot as `(url, value)` pairs (`(k[0], v) for k, v in items`). -/
def get_all (fetchAt : Url → Nat → Except Unit String) (eng : Engine V)
    (fs : Fs V) : Except Unit (List (Url × Option V)) × Engine V × Fs V :=
  match get_new fetchAt eng fs with
  | (.error e, eng', fs') => (.error e, eng', fs')
  | (.ok _, eng', fs') =>
    (.ok (eng'.cache.map fun p => (p.1.1, p.2)), eng', fs')

/-- The misuse error the spec's taxonomy asks for when a poller is started
twice.  The source never raises it. -/
inductive MisuseError where
  | alreadyRunning
  deriving DecidableEq

/-- `WebDelta.get_continuous_new`: the synchronous body only builds a
`threading.Thread` on `_get_continuous` and starts it — there is no check
whether a poller is already running.  Thread creation is modelled by
incrementing the count of live polling loops. -/
def get_continuous_new (eng : Engine V) (runningPollers : Nat) :
    Except MisuseError (Engine V × Nat) :=
  .ok (eng, runningPollers + 1)

/-- `WebDelta.get_continuous_all`: identical synchronous body, with
`get_all=True` passed to the spawned loop. -/
def get_continuous_all (eng : Engine V) (runningPollers : Nat) :
    Except MisuseError (Engine V × Nat) :=
  .ok (eng, runningPollers + 1)

/-- The key under which a task reads and writes the cache. -/
def keyOf (t : Task V) : CKey := (t.url, t.funcName)

/-- The invariant of claim C4: no cache cell holds Python `None`. -/
def noAbsent (c : Cache V) : Prop := ∀ p ∈ c, p.2 ≠ none

/-- The filesystem-level version of `noAbsent`. -/
def noAbsentFs (fs : Fs V) : Prop := ∀ q ∈ fs, noAbsent q.2

/-! ### Association-list (Python dict) lemmas -/

section DictLemmas

variable {K A : Type} [DecidableEq K]

theorem dictGet_set_self (c : List (K × A)) (k : K) (v : A) :
    dictGet (dictSet c k v) k = some v := by
  induction c with
  | nil => simp [dictGet, dictSet]
  | cons p ps ih =>
    by_cases h : p.1 = k
    · simp [dictGet, dictSet, h]
    · simp [dictGet, dictSet, h, ih]

theorem dictGet_set_ne (c : List (K × A)) (k k' : K) (v : A) (h : k' ≠ k) :
    dictGet (dictSet c k v) k' = dictGet c k' := by
  have hk : ¬k = k' := fun hh => h hh.symm
  induction c with
  | nil => simp [dictGet, dictSet, hk]
  | cons p ps ih =>
    by_cases hp : p.1 = k
    · subst hp
      simp [dictGet, dictSet, hk]
    · simp [dictGet, dictSet, hp, ih]

theorem mem_dictSet {c : List (K × A)} {k : K} {v : A} {q : K × A}
    (h : q ∈ dictSet c k v) : q = (k, v) ∨ q ∈ c := by
  induction c with
  | nil => simpa [dictSet] using h
  | cons p ps ih =>
    by_cases hp : p.1 = k
    · simp only [dictSet, hp, if_pos rfl] at h
      rcases List.mem_cons.1 h with h | h
      · exact Or.inl h
      · exact Or.inr (List.mem_cons_of_mem _ h)
    · simp only [dictSet, if_neg hp] at h
      rcases List.mem_cons.1 h with h | h
      · exact Or.inr (List.mem_cons.2 (Or.inl h))
      · rcases ih h with h | h
        · exact Or.inl h
        · exact Or.inr (List.mem_cons_of_mem _ h)

theorem mem_keys_dictSet {c : List (K × A)} {k k' : K} {v : A}
    (h : k' ∈ (dictSet c k v).map Prod.fst) :
    k' = k ∨ k' ∈ c.map Prod.fst := by
  rcases List.mem_map.1 h with ⟨q, hq, hk⟩
  rcases mem_dictSet hq with h1 | h1
  · subst h1; exact Or.inl hk.symm
  · exact Or.inr (hk ▸ List.mem_map_of_mem Prod.fst h1)

theorem nodup_keys_dictSet (c : List (K × A)) (k : K) (v : A)
    (h : (c.map Prod.fst).Nodup) :
    ((dictSet c k v).map Prod.fst).Nodup := by
  induction c with
  | nil => simp [dictSet]
  | cons p ps ih =>
    simp only [List.map_cons, List.nodup_cons] at h
    by_cases hp : p.1 = k
    · subst hp
      simpa [dictSet, List.nodup_cons] using h
    · simp only [dictSet, if_neg hp, List.map_cons, List.nodup_cons]
      refine ⟨fun hmem => ?_, ih h.2⟩
      rcases mem_keys_dictSet hmem with h1 | h1
      · exact hp h1
      · exact h.1 h1

end DictLemmas

/-! ### Retry-loop lemmas -/

/-- A non-absent `live_version` leaves the retry loop immediately. -/
theorem attemptLoop_some (f : Nat → Except Unit String) (fn : String → Option V)
    (n : Nat) (w : Bool) (a r : Nat) (v : V) :
    attemptLoop f fn n w a r (some v) = .ok (some v, [], 0) := by
  cases r <;> simp [attemptLoop]

/-- The loop performs at most `retries` re-fetches. -/
theorem attemptLoop_count (f : Nat → Except Unit String) (fn : String → Option V)
    (n : Nat) (w : Bool) :
    ∀ (r a : Nat) (live res : Option V) (s : List Nat) (m : Nat),
      attemptLoop f fn n w a r live = .ok (res, s, m) → m ≤ r := by
  intro r
  induction r with
  | zero =>
    intro a live res s m h
    simp [attemptLoop] at h
    omega
  | succ r ih =>
    intro a live res s m h
    cases live with
    | some v =>
      simp [attemptLoop] at h
      omega
    | none =>
      cases hf : f a with
      | error e => simp [attemptLoop, hf] at h
      | ok s' =>
        cases hrec : attemptLoop f fn n w (a + 1) r (fn s') with
        | error e => simp [attemptLoop, hf, hrec] at h
        | ok out =>
          obtain ⟨res', s'', m'⟩ := out
          simp only [attemptLoop, hf, hrec, Except.ok.injEq, Prod.mk.injEq] at h
          have := ih (a + 1) (fn s') res' s'' m' hrec
          omega

/-- If the loop ends with an absent value, every retry was used. -/
theorem attemptLoop_none_exhausts (f : Nat → Except Unit String)
    (fn : String → Option V) (n : Nat) (w : Bool) :
    ∀ (r a : Nat) (live : Option V) (s : List Nat) (m : Nat),
      attemptLoop f fn n w a r live = .ok (none, s, m) → m = r := by
  intro r
  induction r with
  | zero =>
    intro a live s m h
    simp [attemptLoop] at h
    omega
  | succ r ih =>
    intro a live s m h
    cases live with
    | some v => simp [attemptLoop] at h
    | none =>
      cases hf : f a with
      | error e => simp [attemptLoop, hf] at h
      | ok s' =>
        cases hrec : attemptLoop f fn n w (a + 1) r (fn s') with
        | error e => simp [attemptLoop, hf, hrec] at h
        | ok out =>
          obtain ⟨res', s'', m'⟩ := out
          simp only [attemptLoop, hf, hrec, Except.ok.injEq, Prod.mk.injEq] at h
          have hres : res' = none := h.1
          subst hres
          have := ih (a + 1) (fn s') s'' m' hrec
          omega

/-- Sleep trace of the loop: with waiting enabled the durations are
`n - retries`, growing by one per iteration; disabled, no sleeps. -/
theorem attemptLoop_sleeps (f : Nat → Except Unit String) (fn : String → Option V)
    (n : Nat) (w : Bool) :
    ∀ (r a : Nat) (live res : Option V) (s : List Nat) (m : Nat),
      r ≤ n → attemptLoop f fn n w a r live = .ok (res, s, m) →
      s = (if w then List.range' (n - r) m else []) := by
  intro r
  induction r with
  | zero =>
    intro a live res s m hr h
    simp [attemptLoop] at h
    obtain ⟨-, hs, hm⟩ := h
    subst hs
    subst hm
    cases w <;> simp
  | succ r ih =>
    intro a live res s m hr h
    cases live with
    | some v =>
      simp [attemptLoop] at h
      obtain ⟨-, hs, hm⟩ := h
      subst hs
      subst hm
      cases w <;> simp
    | none =>
      cases hf : f a with
      | error e => simp [attemptLoop, hf] at h
      | ok s' =>
        cases hrec : attemptLoop f fn n w (a + 1) r (fn s') with
        | error e => simp [attemptLoop, hf, hrec] at h
        | ok out =>
          obtain ⟨res', s'', m'⟩ := out
          simp only [attemptLoop, hf, hrec, Except.ok.injEq, Prod.mk.injEq] at h
          obtain ⟨-, hs, hm⟩ := h
          have hs'' := ih (a + 1) (fn s') res' s'' m' (by omega) hrec
          subst hs''
          subst hs
          subst hm
          cases w with
          | false => simp
          | true =>
            have hnr : n - (r + 1) + 1 = n - r := by omega
            simp only [if_pos rfl, List.range'_succ, hnr]
            simp

/-- Every attempt strictly before the last one performed by the loop
extracted an absent value (the loop stops at the first non-absent one). -/
theorem attemptLoop_absent_before (f : Nat → Except Unit String)
    (fn : String → Option V) (n : Nat) (w : Bool) :
    ∀ (r a : Nat) (live res : Option V) (s : List Nat) (m : Nat),
      attemptLoop f fn n w a r live = .ok (res, s, m) →
      (1 ≤ m → live = none) ∧
      ∀ j, j + 1 < m → Except.map fn (f (a + j)) = .ok none := by
  intro r
  induction r with
  | zero =>
    intro a live res s m h
    simp [attemptLoop] at h
    obtain ⟨-, -, hm⟩ := h
    exact ⟨fun h1 => by omega, fun j hj => by omega⟩
  | succ r ih =>
    intro a live res s m h
    cases live with
    | some v =>
      simp [attemptLoop] at h
      obtain ⟨-, -, hm⟩ := h
      exact ⟨fun h1 => by omega, fun j hj => by omega⟩
    | none =>
      cases hf : f a with
      | error e => simp [attemptLoop, hf] at h
      | ok s' =>
        cases hrec : attemptLoop f fn n w (a + 1) r (fn s') with
        | error e => simp [attemptLoop, hf, hrec] at h
        | ok out =>
          obtain ⟨res', s'', m'⟩ := out
          simp only [attemptLoop, hf, hrec, Except.ok.injEq, Prod.mk.injEq] at h
          obtain ⟨-, -, hm⟩ := h
          obtain ⟨ih1, ih2⟩ := ih (a + 1) (fn s') res' s'' m' hrec
          refine ⟨fun _ => rfl, fun j hj => ?_⟩
          cases j with
          | zero =>
            have hfn : fn s' = none := ih1 (by omega)
            simp [hf, Except.map, hfn]
          | succ j' =>
            have := ih2 j' (by omega)
            have harith : a + 1 + j' = a + (j' + 1) := by omega
            rw [harith] at this
            exact this

/-- If every attempt extracts an absent value, the loop uses all its
retries and ends with `none`. -/
theorem attemptLoop_all_absent (f : Nat → Except Unit String)
    (fn : String → Option V) (n : Nat) (w : Bool)
    (hall : ∀ k, Except.map fn (f k) = .ok none) :
    ∀ (r a : Nat), ∃ s, attemptLoop f fn n w a r none = .ok (none, s, r) := by
  intro r
  induction r with
  | zero => intro a; exact ⟨[], rfl⟩
  | succ r ih =>
    intro a
    have ha := hall a
    cases hf : f a with
    | error e => rw [hf] at ha; simp [Except.map] at ha
    | ok s' =>
      rw [hf] at ha
      simp only [Except.map, Except.ok.injEq] at ha
      obtain ⟨s, hs⟩ := ih (a + 1)
      refine ⟨(if w then [n - (r + 1)] else []) ++ s, ?_⟩
      simp [attemptLoop, hf, ha, hs]

/-! ### `execute` characterization -/

/-- Unfolding `execute` once the fetch and the retry loop are known. -/
theorem execute_eq_ok (fetchAt : Nat → Except Unit String) (rl : Nat) (w : Bool)
    (t : Task V) (cache : Cache V) (html : String) (live : Option V)
    (sleeps : List Nat) (m : Nat)
    (hf : fetchAt 0 = .ok html)
    (hl : attemptLoop fetchAt t.func rl w 1 rl (t.func html) = .ok (live, sleeps, m)) :
    execute fetchAt rl w t cache =
      if live ≠ cacheGet cache (t.url, t.funcName) ∧ live ≠ none then
        .ok ((t.url, live), dictSet cache (t.url, t.funcName) live, sleeps, m + 1)
      else
        .ok ((t.url, none), cache, sleeps, m + 1) := by
  simp [execute, hf, hl]

/-- Inversion: a successful `execute` came from a successful fetch and a
successful retry loop, and took one of the two decision branches. -/
theorem execute_ok_inv (fetchAt : Nat → Except Unit String) (rl : Nat) (w : Bool)
    (t : Task V) (cache : Cache V) (res : Url × Option V) (c' : Cache V)
    (sleeps : List Nat) (nf : Nat)
    (h : execute fetchAt rl w t cache = .ok (res, c', sleeps, nf)) :
    ∃ html live m, fetchAt 0 = .ok html ∧
      attemptLoop fetchAt t.func rl w 1 rl (t.func html) = .ok (live, sleeps, m) ∧
      nf = m + 1 ∧
      ((live ≠ cacheGet cache (t.url, t.funcName) ∧ live ≠ none ∧
          res = (t.url, live) ∧ c' = dictSet cache (t.url, t.funcName) live) ∨
        (¬(live ≠ cacheGet cache (t.url, t.funcName) ∧ live ≠ none) ∧
          res = (t.url, none) ∧ c' = cache)) := by
  cases hf : fetchAt 0 with
  | error e => simp [execute, hf] at h
  | ok html =>
    cases hl : attemptLoop fetchAt t.func rl w 1 rl (t.func html) with
    | error e => simp [execute, hf, hl] at h
    | ok out =>
      obtain ⟨live, s0, m⟩ := out
      rw [execute_eq_ok fetchAt rl w t cache html live s0 m hf hl] at h
      by_cases hcond : live ≠ cacheGet cache (t.url, t.funcName) ∧ live ≠ none
      · rw [if_pos hcond] at h
        simp only [Except.ok.injEq, Prod.mk.injEq] at h
        obtain ⟨hres, hc, hsl, hnf⟩ := h
        subst hsl
        exact ⟨html, live, m, rfl, hl, by omega,
          Or.inl ⟨hcond.1, hcond.2, hres.symm, hc.symm⟩⟩
      · rw [if_neg hcond] at h
        simp only [Except.ok.injEq, Prod.mk.injEq] at h
        obtain ⟨hres, hc, hsl, hnf⟩ := h
        subst hsl
        exact ⟨html, live, m, rfl, hl, by omega,
          Or.inr ⟨hcond, hres.symm, hc.symm⟩⟩

/-- Inversion for `liveResult`. -/
theorem liveResult_ok_inv (fetchAt : Nat → Except Unit String)
    (func : String → Option V) (rl : Nat) (w : Bool) (live : Option V)
    (h : liveResult fetchAt func rl w = .ok live) :
    ∃ html sleeps m, fetchAt 0 = .ok html ∧
      attemptLoop fetchAt func rl w 1 rl (func html) = .ok (live, sleeps, m) := by
  cases hf : fetchAt 0 with
  | error e => simp [liveResult, hf] at h
  | ok html =>
    cases hl : attemptLoop fetchAt func rl w 1 rl (func html) with
    | error e => simp [liveResult, hf, hl] at h
    | ok out =>
      obtain ⟨lv, s0, m⟩ := out
      simp only [liveResult, hf, hl, Except.ok.injEq] at h
      subst h
      exact ⟨html, s0, m, rfl, hl⟩

/-- When the final `live_version` is a change, `execute` reports it and
writes it to the cache. -/
theorem execute_change (fetchAt : Nat → Except Unit String) (rl : Nat) (w : Bool)
    (t : Task V) (cache : Cache V) (live : Option V)
    (h : liveResult fetchAt t.func rl w = .ok live)
    (hne : live ≠ cacheGet cache (keyOf t)) (hsome : live ≠ none) :
    ∃ sleeps m, execute fetchAt rl w t cache =
      .ok ((t.url, live), dictSet cache (keyOf t) live, sleeps, m + 1) := by
  obtain ⟨html, sleeps, m, hf, hl⟩ := liveResult_ok_inv fetchAt t.func rl w live h
  refine ⟨sleeps, m, ?_⟩
  rw [execute_eq_ok fetchAt rl w t cache html live sleeps m hf hl,
    if_pos ⟨hne, hsome⟩]
  rfl

/-- When the final `live_version` is absent or unchanged, `execute`
reports "no change" and leaves the cache alone. -/
theorem execute_nochange (fetchAt : Nat → Except Unit String) (rl : Nat) (w : Bool)
    (t : Task V) (cache : Cache V) (live : Option V)
    (h : liveResult fetchAt t.func rl w = .ok live)
    (hcond : live = cacheGet cache (keyOf t) ∨ live = none) :
    ∃ sleeps m, execute fetchAt rl w t cache =
      .ok ((t.url, none), cache, sleeps, m + 1) := by
  obtain ⟨html, sleeps, m, hf, hl⟩ := liveResult_ok_inv fetchAt t.func rl w live h
  have hni : ¬(live ≠ cacheGet cache (t.url, t.funcName) ∧ live ≠ none) := by
    rcases hcond with hc | hc
    · exact fun hx => hx.1 hc
    · exact fun hx => hx.2 hc
  refine ⟨sleeps, m, ?_⟩
  rw [execute_eq_ok fetchAt rl w t cache html live sleeps m hf hl, if_neg hni]

/-! ### Cycle-level lemmas -/

/-- A successful `execute` preserves the no-`None`-stored invariant. -/
theorem execute_noAbsent (fetchAt : Nat → Except Unit String) (rl : Nat) (w : Bool)
    (t : Task V) (cache : Cache V) (res : Url × Option V) (c' : Cache V)
    (sleeps : List Nat) (nf : Nat)
    (h : execute fetchAt rl w t cache = .ok (res, c', sleeps, nf))
    (hna : noAbsent cache) : noAbsent c' := by
  obtain ⟨html, live, m, hf, hl, hnf, hbr⟩ :=
    execute_ok_inv fetchAt rl w t cache res c' sleeps nf h
  rcases hbr with ⟨hne, hsome, hres, hc⟩ | ⟨hcond, hres, hc⟩
  · subst hc
    intro p hp
    rcases mem_dictSet hp with hp | hp
    · rw [hp]; exact hsome
    · exact hna p hp
  · subst hc; exact hna

/-- A successful `execute` preserves distinctness of the cache keys. -/
theorem execute_nodupKeys (fetchAt : Nat → Except Unit String) (rl : Nat) (w : Bool)
    (t : Task V) (cache : Cache V) (res : Url × Option V) (c' : Cache V)
    (sleeps : List Nat) (nf : Nat)
    (h : execute fetchAt rl w t cache = .ok (res, c', sleeps, nf))
    (hnd : (cache.map Prod.fst).Nodup) : (c'.map Prod.fst).Nodup := by
  obtain ⟨html, live, m, hf, hl, hnf, hbr⟩ :=
    execute_ok_inv fetchAt rl w t cache res c' sleeps nf h
  rcases hbr with ⟨hne, hsome, hres, hc⟩ | ⟨hcond, hres, hc⟩
  · subst hc; exact nodup_keys_dictSet cache _ _ hnd
  · subst hc; exact hnd

/-- `runTasks` preserves the no-`None`-stored invariant, also on the cache
it leaves behind when a task unit raises. -/
theorem runTasks_noAbsent (fetchAt : Url → Nat → Except Unit String)
    (rl : Nat) (w : Bool) :
    ∀ (ts : List (Task V)) (cache : Cache V)
      (r : Except Unit (List (Url × Option V))) (c : Cache V),
      runTasks fetchAt rl w ts cache = (r, c) → noAbsent cache → noAbsent c := by
  intro ts
  induction ts with
  | nil =>
    intro cache r c h hna
    simp [runTasks] at h
    exact h.2 ▸ hna
  | cons t ts ih =>
    intro cache r c h hna
    cases hex : execute (fetchAt t.url) rl w t cache with
    | error e =>
      simp [runTasks, hex] at h
      exact h.2 ▸ hna
    | ok out =>
      obtain ⟨r0, cache', s0, n0⟩ := out
      have hna' : noAbsent cache' :=
        execute_noAbsent (fetchAt t.url) rl w t cache r0 cache' s0 n0 hex hna
      rcases hrun : runTasks fetchAt rl w ts cache' with ⟨r2, c2⟩
      have hc2 : noAbsent c2 := ih cache' r2 c2 hrun hna'
      cases r2 with
      | error e2 =>
        simp [runTasks, hex, hrun] at h
        exact h.2 ▸ hc2
      | ok rs2 =>
        simp [runTasks, hex, hrun] at h
        exact h.2 ▸ hc2

/-- `runTasks` preserves distinctness of the cache keys. -/
theorem runTasks_nodupKeys (fetchAt : Url → Nat → Except Unit String)
    (rl : Nat) (w : Bool) :
    ∀ (ts : List (Task V)) (cache : Cache V)
      (r : Except Unit (List (Url × Option V))) (c : Cache V),
      runTasks fetchAt rl w ts cache = (r, c) → (cache.map Prod.fst).Nodup →
      (c.map Prod.fst).Nodup := by
  intro ts
  induction ts with
  | nil =>
    intro cache r c h hnd
    simp [runTasks] at h
    exact h.2 ▸ hnd
  | cons t ts ih =>
    intro cache r c h hnd
    cases hex : execute (fetchAt t.url) rl w t cache with
    | error e =>
      simp [runTasks, hex] at h
      exact h.2 ▸ hnd
    | ok out =>
      obtain ⟨r0, cache', s0, n0⟩ := out
      have hnd' : (cache'.map Prod.fst).Nodup :=
        execute_nodupKeys (fetchAt t.url) rl w t cache r0 cache' s0 n0 hex hnd
      rcases hrun : runTasks fetchAt rl w ts cache' with ⟨r2, c2⟩
      have hc2 := ih cache' r2 c2 hrun hnd'
      cases r2 with
      | error e2 =>
        simp [runTasks, hex, hrun] at h
        exact h.2 ▸ hc2
      | ok rs2 =>
        simp [runTasks, hex, hrun] at h
        exact h.2 ▸ hc2

/-- Error propagation in the gather step: if the tasks before `t` all
succeed and `t`'s unit raises, the whole cycle's result is that error. -/
theorem runTasks_error_after (fetchAt : Url → Nat → Except Unit String)
    (rl : Nat) (w : Bool) :
    ∀ (ts1 : List (Task V)) (t : Task V) (ts2 : List (Task V)) (cache : Cache V)
      (rs : List (Url × Option V)) (c : Cache V) (e : Unit),
      runTasks fetchAt rl w ts1 cache = (.ok rs, c) →
      execute (fetchAt t.url) rl w t c = .error e →
      (runTasks fetchAt rl w (ts1 ++ t :: ts2) cache).1 = .error e := by
  intro ts1
  induction ts1 with
  | nil =>
    intro t ts2 cache rs c e h1 h2
    simp [runTasks] at h1
    obtain ⟨-, hc⟩ := h1
    subst hc
    simp [runTasks, h2]
  | cons t' ts1 ih =>
    intro t ts2 cache rs c e h1 h2
    cases hex : execute (fetchAt t'.url) rl w t' cache with
    | error e' => simp [runTasks, hex] at h1
    | ok out =>
      obtain ⟨r0, cache', s0, n0⟩ := out
      rcases hrun : runTasks fetchAt rl w ts1 cache' with ⟨r2, c2⟩
      cases r2 with
      | error e2 => simp [runTasks, hex, hrun] at h1
      | ok rs2 =>
        simp [runTasks, hex, hrun] at h1
        obtain ⟨-, hc⟩ := h1
        subst hc
        have htail := ih t ts2 cache' rs2 c2 e hrun h2
        rcases hrun2 : runTasks fetchAt rl w (ts1 ++ t :: ts2) cache' with ⟨r3, c3⟩
        rw [hrun2] at htail
        simp at htail
        subst htail
        simp [runTasks, hex, hrun2]

/-- First cycle over deterministic behaviour: every task unit succeeds,
the cache afterwards holds each task's final live value (when non-absent),
other keys are untouched, and every previously uncached task whose live
value is non-absent contributes a change result. -/
theorem runTasks_det (fetchAt : Url → Nat → Except Unit String)
    (rl : Nat) (w : Bool) :
    ∀ (ts : List (Task V)) (cache : Cache V),
      (∀ t ∈ ts, ∃ lv, liveResult (fetchAt t.url) t.func rl w = .ok lv) →
      (ts.map keyOf).Nodup →
      ∃ rs c, runTasks fetchAt rl w ts cache = (.ok rs, c) ∧
        (∀ k, k ∉ ts.map keyOf → dictGet c k = dictGet cache k) ∧
        (∀ t ∈ ts, ∀ v, liveResult (fetchAt t.url) t.func rl w = .ok (some v) →
          cacheGet c (keyOf t) = some v) ∧
        (∀ t ∈ ts, ∀ v, liveResult (fetchAt t.url) t.func rl w = .ok (some v) →
          cacheGet cache (keyOf t) = none → (t.url, some v) ∈ rs) := by
  intro ts
  induction ts with
  | nil =>
    intro cache hlive hnd
    exact ⟨[], cache, rfl, fun k hk => rfl, fun t ht => absurd ht (by simp),
      fun t ht => absurd ht (by simp)⟩
  | cons t ts ih =>
    intro cache hlive hnd
    obtain ⟨lv, hlv⟩ := hlive t (List.mem_cons_self t ts)
    simp only [List.map_cons, List.nodup_cons] at hnd
    obtain ⟨hknot, hndts⟩ := hnd
    have hlive' : ∀ t' ∈ ts, ∃ lv, liveResult (fetchAt t'.url) t'.func rl w = .ok lv :=
      fun t' ht' => hlive t' (List.mem_cons_of_mem t ht')
    -- run the head task, splitting on its decision
    have hstep : ∃ r0 c0, (∃ s0 n0,
        execute (fetchAt t.url) rl w t cache = .ok (r0, c0, s0, n0)) ∧
        cacheGet c0 (keyOf t) = (if lv = none then cacheGet cache (keyOf t) else lv) ∧
        (∀ k, k ≠ keyOf t → dictGet c0 k = dictGet cache k) ∧
        (cacheGet cache (keyOf t) = none → ∀ v, lv = some v → r0 = (t.url, some v)) := by
      cases lv with
      | none =>
        obtain ⟨s0, m0, hex⟩ := execute_nochange (fetchAt t.url) rl w t cache none
          hlv (Or.inr rfl)
        exact ⟨(t.url, none), cache, ⟨s0, m0 + 1, hex⟩, by simp,
          fun k hk => rfl, fun hun v hv => absurd hv (by simp)⟩
      | some v =>
        by_cases hch : (some v : Option V) = cacheGet cache (keyOf t)
        · obtain ⟨s0, m0, hex⟩ := execute_nochange (fetchAt t.url) rl w t cache (some v)
            hlv (Or.inl hch)
          refine ⟨(t.url, none), cache, ⟨s0, m0 + 1, hex⟩, by simp [← hch],
            fun k hk => rfl, fun hun v' hv' => ?_⟩
          rw [hun] at hch
          simp at hch
        · obtain ⟨s0, m0, hex⟩ := execute_change (fetchAt t.url) rl w t cache (some v)
            hlv hch (by simp)
          refine ⟨(t.url, some v), dictSet cache (keyOf t) (some v),
            ⟨s0, m0 + 1, hex⟩, ?_, fun k hk => dictGet_set_ne cache (keyOf t) k _ hk, ?_⟩
          · simp [cacheGet, dictGet_set_self]
          · intro hun v' hv'
            obtain rfl : v = v' := by simpa using hv'
            rfl
    obtain ⟨r0, c0, ⟨s0, n0, hex⟩, hc0key, hc0other, hc0res⟩ := hstep
    obtain ⟨rs', c, hrun, ha, hb, hc⟩ := ih c0 hlive' hndts
    refine ⟨r0 :: rs', c, ?_, ?_, ?_, ?_⟩
    · simp [runTasks, hex, hrun]
    · intro k hk
      simp only [List.map_cons, List.mem_cons, not_or] at hk
      rw [ha k hk.2, hc0other k (fun he => hk.1 (he ▸ rfl))]
    · intro t' ht' v hv
      rcases List.mem_cons.1 ht' with rfl | ht'
      · -- the head task's own key
        have hkey : keyOf t' ∉ ts.map keyOf := hknot
        have hdg := ha (keyOf t') hkey
        have hcg : cacheGet c (keyOf t') = cacheGet c0 (keyOf t') := by
          unfold cacheGet
          rw [hdg]
        have hlveq : lv = some v := by
          rw [hlv] at hv
          simpa using hv
        rw [hcg, hc0key, hlveq]
        simp
      · exact hb t' ht' v hv
    · intro t' ht' v hv hun
      rcases List.mem_cons.1 ht' with rfl | ht'
      · have hlveq : lv = some v := by
          rw [hlv] at hv
          simpa using hv
        rw [hc0res hun v hlveq]
        exact List.mem_cons_self _ rs'
      · have hkne : keyOf t' ≠ keyOf t := by
          intro he
          exact hknot (he ▸ List.mem_map_of_mem keyOf ht')
        have hun' : cacheGet c0 (keyOf t') = none := by
          unfold cacheGet
          rw [hc0other (keyOf t') hkne]
          exact hun
        exact List.mem_cons_of_mem r0 (hc t' ht' v hv hun')

/-- Second cycle over the same deterministic behaviour: a cache in which
every task's non-absent live value is already stored produces no change
results and no cache writes. -/
theorem runTasks_stable (fetchAt : Url → Nat → Except Unit String)
    (rl : Nat) (w : Bool) :
    ∀ (ts : List (Task V)) (cache : Cache V),
      (∀ t ∈ ts, ∃ lv, liveResult (fetchAt t.url) t.func rl w = .ok lv) →
      (∀ t ∈ ts, ∀ v, liveResult (fetchAt t.url) t.func rl w = .ok (some v) →
        cacheGet cache (keyOf t) = some v) →
      ∃ rs, runTasks fetchAt rl w ts cache = (.ok rs, cache) ∧ ∀ r ∈ rs, r.2 = none := by
  intro ts
  induction ts with
  | nil =>
    intro cache hlive hst
    exact ⟨[], rfl, by simp⟩
  | cons t ts ih =>
    intro cache hlive hst
    obtain ⟨lv, hlv⟩ := hlive t (List.mem_cons_self t ts)
    have hnc : ∃ s0 m0, execute (fetchAt t.url) rl w t cache =
        .ok ((t.url, none), cache, s0, m0 + 1) := by
      cases hlvc : lv with
      | none => exact execute_nochange (fetchAt t.url) rl w t cache none (hlvc ▸ hlv) (Or.inr rfl)
      | some v =>
        have := hst t (List.mem_cons_self t ts) v (hlvc ▸ hlv)
        exact execute_nochange (fetchAt t.url) rl w t cache (some v) (hlvc ▸ hlv)
          (Or.inl this.symm)
    obtain ⟨s0, m0, hex⟩ := hnc
    obtain ⟨rs', hrun, hnone⟩ := ih cache
      (fun t' ht' => hlive t' (List.mem_cons_of_mem t ht'))
      (fun t' ht' v hv => hst t' (List.mem_cons_of_mem t ht') v hv)
    refine ⟨(t.url, none) :: rs', ?_, ?_⟩
    · simp [runTasks, hex, hrun]
    · intro r hr
      rcases List.mem_cons.1 hr with rfl | hr
      · rfl
      · exact hnone r hr

/-! ### Engine-level helper lemmas -/

/-- `read_cache_file` only touches the cache. -/
theorem read_cache_file_rate_limit (eng : Engine V) (fs : Fs V) :
    (read_cache_file eng fs).rate_limit = eng.rate_limit := by
  rcases hcf : eng.cache_file with _ | p
  · simp [read_cache_file, hcf]
  · rcases hg : dictGet fs p with _ | c <;> simp [read_cache_file, hcf, hg]

/-- The engine's cache after `get_new` is the cache `runTasks` produced,
also when the cycle raised. -/
theorem get_new_cache_eq (fetchAt : Url → Nat → Except Unit String)
    (eng : Engine V) (fs : Fs V) :
    ((get_new fetchAt eng fs).2.1).cache =
      (runTasks fetchAt eng.retry_limit eng.wait_between_retries eng.tasks eng.cache).2 := by
  rcases hrun : runTasks fetchAt eng.retry_limit eng.wait_between_retries eng.tasks eng.cache
    with ⟨r, c⟩
  cases r <;> simp [get_new, hrun]

/-- `get_all` leaves the same engine and filesystem as its inner `get_new`. -/
theorem get_all_state_eq (fetchAt : Url → Nat → Except Unit String)
    (eng : Engine V) (fs : Fs V) :
    (get_all fetchAt eng fs).2 = (get_new fetchAt eng fs).2 := by
  rcases h : get_new fetchAt eng fs with ⟨r, eng', fs'⟩
  cases r <;> simp [get_all, h]

/-- A `dictGet` hit is a member of the association list. -/
theorem dictGet_mem {K A : Type} [DecidableEq K] {l : List (K × A)} {k : K} {a : A}
    (h : dictGet l k = some a) : (k, a) ∈ l := by
  induction l with
  | nil => simp [dictGet] at h
  | cons p ps ih =>
    by_cases hp : p.1 = k
    · simp only [dictGet, if_pos hp, Option.some.injEq] at h
      have hpe : p = (k, a) := Prod.ext hp h
      exact hpe ▸ List.mem_cons_self p ps
    · simp only [dictGet, if_neg hp] at h
      exact List.mem_cons_of_mem _ (ih h)

/-! ### Claims -/

/-- Tasks and transport used by the C1 theorems: the first task's page
fetches fine, the second task's fetch always raises. -/
def taskC1a : Task Nat := ⟨"u1", "f1", fun _ => some 1⟩

def taskC1b : Task Nat := ⟨"u2", "f2", fun _ => some 2⟩

def engC1 : Engine Nat :=
  { tasks := [taskC1a, taskC1b], retry_limit := 0, wait_between_retries := true,
    cache_file := none, rate_limit := 60, cache := [] }

def fetchC1 : Url → Nat → Except Unit String :=
  fun u _ => if u = "u1" then .ok "page" else .error ()

/-- C1, counterexample to the claim as stated: with two registered tasks,
the first succeeding and the second raising a transport failure, `get_new`
returns the bare error — there is no result list at all, so the failed
task is not reported "alongside the successful results" and the other
task's success is lost; the cache file is also not flushed. -/
theorem c1_counterexample :
    (get_new fetchC1 engC1 []).1 = .error () ∧
    (get_new fetchC1 engC1 []).2.2 = ([] : Fs Nat) := ⟨rfl, rfl⟩

/-- C1 (amended): `asyncio.gather` is used without `return_exceptions`, so
a TransportFailure raised by one task's fetch aborts the whole `get_new`
cycle: the error propagates out, no per-task results are returned (not
even the completed successes), and the cache file is not flushed. -/
theorem c1_transport_failure_aborts_cycle (fetchAt : Url → Nat → Except Unit String)
    (eng : Engine V) (fs : Fs V) (ts1 : List (Task V)) (t : Task V)
    (ts2 : List (Task V)) (rs : List (Url × Option V)) (c : Cache V) (e : Unit)
    (hts : eng.tasks = ts1 ++ t :: ts2)
    (hpre : runTasks fetchAt eng.retry_limit eng.wait_between_retries ts1 eng.cache = (.ok rs, c))
    (hfail : execute (fetchAt t.url) eng.retry_limit eng.wait_between_retries t c = .error e) :
    (get_new fetchAt eng fs).1 = .error e ∧ (get_new fetchAt eng fs).2.2 = fs := by
  have herr := runTasks_error_after fetchAt eng.retry_limit eng.wait_between_retries ts1 t ts2
    eng.cache rs c e hpre hfail
  rw [← hts] at herr
  rcases hrun : runTasks fetchAt eng.retry_limit eng.wait_between_retries eng.tasks eng.cache
    with ⟨r1, c1⟩
  rw [hrun] at herr
  simp only at herr
  subst herr
  constructor <;> simp [get_new, hrun]

/-- Witness for C1: the amended theorem applied to the concrete two-task
engine whose second fetch fails. -/
theorem c1_witness :
    (engC1.tasks = [taskC1a] ++ taskC1b :: [] ∧
      runTasks fetchC1 engC1.retry_limit engC1.wait_between_retries [taskC1a] engC1.cache =
        (.ok [("u1", some 1)], [(("u1", "f1"), some 1)]) ∧
      execute (fetchC1 taskC1b.url) engC1.retry_limit engC1.wait_between_retries taskC1b
        [(("u1", "f1"), some 1)] = .error ()) ∧
    ((get_new fetchC1 engC1 []).1 = .error () ∧ (get_new fetchC1 engC1 []).2.2 = ([] : Fs Nat)) :=
  ⟨⟨rfl, rfl, rfl⟩,
    c1_transport_failure_aborts_cycle fetchC1 engC1 [] [taskC1a] taskC1b []
      [("u1", some 1)] [(("u1", "f1"), some 1)] () rfl rfl rfl⟩

/-- The engine at C2's failing input: no cache file configured (the
default) and a non-empty in-memory cache. -/
def engC2 : Engine Nat :=
  { tasks := [⟨"u", "f", fun _ => some 1⟩], retry_limit := 5,
    wait_between_retries := true, cache_file := none, rate_limit := 60,
    cache := [(("u", "f"), some 1)] }

/-- C2, behaviour at the failing input: `clear_tasks` on an engine with no
configured cache file passes `None` to `os.remove`, which raises
`TypeError`; the task list has already been cleared but the in-memory
cache is left untouched.  With a configured-but-missing cache file the
call does succeed and empties the cache, confirming the rest of the
claim — only the "no storage configured" part fails. -/
theorem c2_clear_without_storage_raises :
    (clear_tasks engC2 []).1 = .error PyError.typeError ∧
    (clear_tasks engC2 []).2.1.cache = [(("u", "f"), some 1)] ∧
    (clear_tasks engC2 []).2.1.tasks = [] ∧
    (clear_tasks { engC2 with cache_file := some "c" } []).1 = .ok () ∧
    (clear_tasks { engC2 with cache_file := some "c" } []).2.1.cache = [] ∧
    (clear_tasks { engC2 with cache_file := some "c" } [("c", [])]).1 = .ok () ∧
    (clear_tasks { engC2 with cache_file := some "c" } [("c", [])]).2.2 = ([] : Fs Nat) :=
  ⟨rfl, rfl, rfl, rfl, rfl, rfl, rfl⟩

/-- Task and transport for C3: the first fetched text extracts to absent,
the second to `5`. -/
def taskC3 : Task Nat := ⟨"u", "f", fun s => if s = "good" then some 5 else none⟩

def fetchC3 : Nat → Except Unit String := fun n => if n = 0 then .ok "bad" else .ok "good"

/-- C3, counterexample to the claim as stated: the extractor returns
absent on the first fetched text and `5` on the second, `retry_limit = 1`,
but the cache already holds `5` for the task's key — `execute` returns
`(url, absent)`, not `(url, 5)`. -/
theorem c3_counterexample :
    taskC3.func "bad" = none ∧ taskC3.func "good" = some 5 ∧
    execute fetchC3 1 false taskC3 [(("u", "f"), some 5)] =
      .ok (("u", none), [(("u", "f"), some 5)], [], 2) :=
  ⟨rfl, rfl, rfl⟩

/-- C3 (amended): for a task whose extractor returns absent on the first
fetched text and a non-absent `v` on the second, any `retry_limit ≥ 1`,
and `v` different from the value cached for the task's key, `execute`
returns `(url, v)` and records `v` in the cache. -/
theorem c3_retry_recovers_value (fetchAt : Nat → Except Unit String) (rl : Nat)
    (w : Bool) (t : Task V) (cache : Cache V) (s0 s1 : String) (v : V)
    (hf0 : fetchAt 0 = .ok s0) (he0 : t.func s0 = none)
    (hf1 : fetchAt 1 = .ok s1) (he1 : t.func s1 = some v)
    (hrl : 1 ≤ rl) (hv : cacheGet cache (keyOf t) ≠ some v) :
    ∃ sleeps m, execute fetchAt rl w t cache =
      .ok ((t.url, some v), dictSet cache (keyOf t) (some v), sleeps, m + 1) := by
  have hlive : liveResult fetchAt t.func rl w = .ok (some v) := by
    obtain ⟨r, hr⟩ : ∃ r, rl = r + 1 := ⟨rl - 1, by omega⟩
    subst hr
    simp [liveResult, hf0, he0, attemptLoop, hf1, he1, attemptLoop_some]
  exact execute_change fetchAt rl w t cache (some v) hlive (fun hh => hv hh.symm) (by simp)

/-- Witness for C3: the amended theorem applied at the concrete task with
an empty cache. -/
theorem c3_witness :
    (fetchC3 0 = .ok "bad" ∧ taskC3.func "bad" = none ∧
      fetchC3 1 = .ok "good" ∧ taskC3.func "good" = some 5 ∧
      1 ≤ 1 ∧ cacheGet ([] : Cache Nat) (keyOf taskC3) ≠ some 5) ∧
    (∃ sleeps m, execute fetchC3 1 false taskC3 [] =
      .ok ((taskC3.url, some 5), dictSet ([] : Cache Nat) (keyOf taskC3) (some 5), sleeps, m + 1)) :=
  ⟨⟨rfl, rfl, rfl, rfl, le_rfl, by decide⟩,
    c3_retry_recovers_value fetchC3 1 false taskC3 [] "bad" "good" 5 rfl rfl rfl rfl
      le_rfl (by decide)⟩

/-- C4: no engine operation ever stores Python `None` in the cache.
`execute` writes only a non-absent live value (its guard), `get_new` and
`get_all` only write through `execute`, `clear_tasks` empties the cache or
leaves it alone, reading the cache file only installs contents previously
flushed from a good cache, and flushing a good cache keeps the
filesystem invariant. -/
theorem c4_no_absent_ever_stored (fetchA : Nat → Except Unit String)
    (fetchAt : Url → Nat → Except Unit String) (t : Task V)
    (eng : Engine V) (fs : Fs V) (res : Url × Option V) (c' : Cache V)
    (sleeps : List Nat) (nf : Nat)
    (hna : noAbsent eng.cache) (hfs : noAbsentFs fs)
    (hex : execute fetchA eng.retry_limit eng.wait_between_retries t eng.cache =
      .ok (res, c', sleeps, nf)) :
    noAbsent c' ∧
    noAbsent ((get_new fetchAt eng fs).2.1).cache ∧
    noAbsent ((get_all fetchAt eng fs).2.1).cache ∧
    noAbsent ((clear_tasks eng fs).2.1).cache ∧
    noAbsent (read_cache_file eng fs).cache ∧
    noAbsentFs (update_cache_file eng fs) := by
  have hrunpart : noAbsent ((get_new fetchAt eng fs).2.1).cache := by
    rw [get_new_cache_eq]
    rcases hrun : runTasks fetchAt eng.retry_limit eng.wait_between_retries eng.tasks eng.cache
      with ⟨r, c⟩
    exact runTasks_noAbsent fetchAt eng.retry_limit eng.wait_between_retries eng.tasks
      eng.cache r c hrun hna
  refine ⟨execute_noAbsent fetchA eng.retry_limit eng.wait_between_retries t eng.cache
      res c' sleeps nf hex hna, hrunpart, ?_, ?_, ?_, ?_⟩
  · rw [show ((get_all fetchAt eng fs).2.1).cache = ((get_new fetchAt eng fs).2.1).cache by
      rw [get_all_state_eq]]
    exact hrunpart
  · rcases hcf : eng.cache_file with _ | p
    · simpa [clear_tasks, osRemove, hcf] using hna
    · by_cases hhas : dictHas fs p
      · simp [clear_tasks, osRemove, hcf, hhas, noAbsent]
      · simp [clear_tasks, osRemove, hcf, hhas, noAbsent]
  · rcases hcf : eng.cache_file with _ | p
    · simpa [read_cache_file, hcf] using hna
    · rcases hg : dictGet fs p with _ | c
      · simpa [read_cache_file, hcf, hg] using hna
      · have hmem : (p, c) ∈ fs := dictGet_mem hg
        simpa [read_cache_file, hcf, hg] using hfs (p, c) hmem
  · rcases hcf : eng.cache_file with _ | p
    · simpa [update_cache_file, hcf] using hfs
    · simp only [update_cache_file, hcf]
      intro q hq
      rcases mem_dictSet hq with hq | hq
      · rw [hq]; exact hna
      · exact hfs q hq

/-- Concrete inputs for the C4 witness. -/
def taskC4 : Task Nat := ⟨"u", "f", fun _ => some 2⟩

def engC4 : Engine Nat :=
  { tasks := [taskC4], retry_limit := 1, wait_between_retries := true,
    cache_file := some "c", rate_limit := 60, cache := [(("u", "f"), some 1)] }

def fetchC4 : Url → Nat → Except Unit String := fun _ _ => .ok "x"

/-- Witness for C4: the invariant theorem applied to a concrete engine,
filesystem and execution. -/
theorem c4_witness :
    (noAbsent engC4.cache ∧ noAbsentFs [("c", [(("u", "f"), some 5)])] ∧
      execute (fetchC4 "u") engC4.retry_limit engC4.wait_between_retries taskC4 engC4.cache =
        .ok (("u", some 2), [(("u", "f"), some 2)], [], 1)) ∧
    (noAbsent [(("u", "f"), some 2)] ∧
      noAbsent ((get_new fetchC4 engC4 [("c", [(("u", "f"), some 5)])]).2.1).cache ∧
      noAbsent ((get_all fetchC4 engC4 [("c", [(("u", "f"), some 5)])]).2.1).cache ∧
      noAbsent ((clear_tasks engC4 [("c", [(("u", "f"), some 5)])]).2.1).cache ∧
      noAbsent (read_cache_file engC4 [("c", [(("u", "f"), some 5)])]).cache ∧
      noAbsentFs (update_cache_file engC4 [("c", [(("u", "f"), some 5)])])) :=
  ⟨⟨by unfold noAbsent; decide, by unfold noAbsentFs noAbsent; decide, rfl⟩,
    c4_no_absent_ever_stored (fetchC4 "u") fetchC4 taskC4 engC4
      [("c", [(("u", "f"), some 5)])] ("u", some 2) [(("u", "f"), some 2)] [] 1
      (by unfold noAbsent; decide) (by unfold noAbsentFs noAbsent; decide) rfl⟩

/-- Concrete inputs for the C5 counterexample: an extractor that always
returns absent. -/
def taskC5 : Task Nat := ⟨"u", "f", fun _ => none⟩

def engC5 : Engine Nat :=
  { tasks := [taskC5], retry_limit := 1, wait_between_retries := false,
    cache_file := none, rate_limit := 60, cache := [] }

def fetchC5 : Url → Nat → Except Unit String := fun _ _ => .ok "x"

/-- C5, counterexample to the claim as stated: deterministic fetch/extract
behaviour, the task's key not cached, yet the first `get_new` returns the
empty list (the extractor yields absent on every attempt), contradicting
"the first call returns a non-empty result for each task whose value was
not yet cached". -/
theorem c5_counterexample :
    cacheGet engC5.cache (keyOf taskC5) = none ∧
    (get_new fetchC5 engC5 []).1 = .ok [] := ⟨rfl, rfl⟩

/-- C5 (amended): over fetch/extract behaviour that is deterministic and
identical across two successive `get_new` calls, with every task unit
succeeding and the registered tasks having pairwise-distinct cache keys:
the first call returns a result for each task whose key was not yet
cached and whose fetch-extract-retry yields a non-absent value, and the
second call returns the empty list. -/
theorem c5_idempotent_cycles (fetchAt : Url → Nat → Except Unit String)
    (eng : Engine V) (fs : Fs V)
    (hkeys : (eng.tasks.map keyOf).Nodup)
    (hlive : ∀ t ∈ eng.tasks, ∃ lv,
      liveResult (fetchAt t.url) t.func eng.retry_limit eng.wait_between_retries = .ok lv) :
    ∃ rs1 eng1 fs1, get_new fetchAt eng fs = (.ok rs1, eng1, fs1) ∧
      (∀ t ∈ eng.tasks, ∀ v,
        liveResult (fetchAt t.url) t.func eng.retry_limit eng.wait_between_retries =
          .ok (some v) →
        cacheGet eng.cache (keyOf t) = none → (t.url, some v) ∈ rs1) ∧
      (get_new fetchAt eng1 fs1).1 = .ok [] := by
  obtain ⟨rs, c, hrun, ha, hb, hc⟩ := runTasks_det fetchAt eng.retry_limit
    eng.wait_between_retries eng.tasks eng.cache hlive hkeys
  refine ⟨rs.filter (fun x => x.2.isSome), { eng with cache := c },
    update_cache_file { eng with cache := c } fs, ?_, ?_, ?_⟩
  · simp [get_new, hrun]
  · intro t ht v hv hun
    exact List.mem_filter.2 ⟨hc t ht v hv hun, by simp⟩
  · obtain ⟨rs2, hrun2, hnone⟩ := runTasks_stable fetchAt eng.retry_limit
      eng.wait_between_retries eng.tasks c hlive hb
    have hfil : rs2.filter (fun x => x.2.isSome) = [] :=
      List.filter_eq_nil_iff.2 (fun a ha2 => by simp [hnone a ha2])
    simp [get_new, hrun2, hfil]

/-- Concrete inputs for the C5 witness: one task whose extractor succeeds
immediately. -/
def taskC5w : Task Nat := ⟨"u", "f", fun s => if s = "x" then some 3 else none⟩

def engC5w : Engine Nat :=
  { tasks := [taskC5w], retry_limit := 0, wait_between_retries := false,
    cache_file := none, rate_limit := 60, cache := [] }

/-- Witness for C5: the amended theorem applied to a concrete single-task
engine over the constant transport. -/
theorem c5_witness :
    ((engC5w.tasks.map keyOf).Nodup ∧
      (∀ t ∈ engC5w.tasks, ∃ lv,
        liveResult (fetchC5 t.url) t.func engC5w.retry_limit engC5w.wait_between_retries =
          .ok lv)) ∧
    (∃ rs1 eng1 fs1, get_new fetchC5 engC5w [] = (.ok rs1, eng1, fs1) ∧
      (∀ t ∈ engC5w.tasks, ∀ v,
        liveResult (fetchC5 t.url) t.func engC5w.retry_limit engC5w.wait_between_retries =
          .ok (some v) →
        cacheGet engC5w.cache (keyOf t) = none → (t.url, some v) ∈ rs1) ∧
      (get_new fetchC5 eng1 fs1).1 = .ok []) := by
  have hkeys : (engC5w.tasks.map keyOf).Nodup := by
    simp [engC5w, keyOf]
  have hlive : ∀ t ∈ engC5w.tasks, ∃ lv,
      liveResult (fetchC5 t.url) t.func engC5w.retry_limit engC5w.wait_between_retries =
        .ok lv := by
    intro t ht
    simp only [engC5w, List.mem_singleton] at ht
    subst ht
    exact ⟨some 3, rfl⟩
  exact ⟨⟨hkeys, hlive⟩, c5_idempotent_cycles fetchC5 engC5w [] hkeys hlive⟩

/-- C6: `get_all` is exactly one `get_new` cycle followed by the full
cache snapshot rendered as `(url, value)` pairs; since the cache is a dict
(distinct keys, preserved by every cycle), the snapshot carries exactly
one entry per distinct `(url, extractor-name)` key it holds. -/
theorem c6_get_all_is_cycle_plus_snapshot (fetchAt : Url → Nat → Except Unit String)
    (eng : Engine V) (fs : Fs V) (rs : List (Url × Option V)) (eng' : Engine V) (fs' : Fs V)
    (hnd : (eng.cache.map Prod.fst).Nodup)
    (h : get_new fetchAt eng fs = (.ok rs, eng', fs')) :
    get_all fetchAt eng fs = (.ok (eng'.cache.map fun p => (p.1.1, p.2)), eng', fs') ∧
    (eng'.cache.map Prod.fst).Nodup ∧
    (eng'.cache.map fun p => (p.1.1, p.2)).length = eng'.cache.length := by
  refine ⟨by simp [get_all, h], ?_, by simp⟩
  rcases hrun : runTasks fetchAt eng.retry_limit eng.wait_between_retries eng.tasks eng.cache
    with ⟨r1, c1⟩
  have hnd1 : (c1.map Prod.fst).Nodup :=
    runTasks_nodupKeys fetchAt eng.retry_limit eng.wait_between_retries eng.tasks
      eng.cache r1 c1 hrun hnd
  cases r1 with
  | error e => simp [get_new, hrun] at h
  | ok rs1 =>
    have heng : eng' = { eng with cache := c1 } := by
      have h2 := congrArg (fun x => x.2.1) h
      simp only [get_new, hrun] at h2
      exact h2.symm
    rw [heng]
    simpa using hnd1

/-- Concrete inputs for the C6 witness. -/
def taskC6 : Task Nat := ⟨"u", "f", fun _ => some 4⟩

def engC6 : Engine Nat :=
  { tasks := [taskC6], retry_limit := 0, wait_between_retries := true,
    cache_file := none, rate_limit := 60, cache := [(("v", "g"), some 9)] }

def fetchC6 : Url → Nat → Except Unit String := fun _ _ => .ok "x"

/-- The engine state after the C6 witness run. -/
def engC6' : Engine Nat :=
  { engC6 with cache := [(("v", "g"), some 9), (("u", "f"), some 4)] }

/-- Witness for C6: the theorem applied to a concrete run in which the
cycle appends a second cache entry. -/
theorem c6_witness :
    ((engC6.cache.map Prod.fst).Nodup ∧
      get_new fetchC6 engC6 [] = (.ok [("u", some 4)], engC6', [])) ∧
    (get_all fetchC6 engC6 [] = (.ok (engC6'.cache.map fun p => (p.1.1, p.2)), engC6', []) ∧
      (engC6'.cache.map Prod.fst).Nodup ∧
      (engC6'.cache.map fun p => (p.1.1, p.2)).length = engC6'.cache.length) :=
  ⟨⟨by decide, rfl⟩,
    c6_get_all_is_cycle_plus_snapshot fetchC6 engC6 [] [("u", some 4)] engC6' []
      (by decide) rfl⟩

/-- C7: in `execute`'s retry loop, with wait-between-retries enabled the
sleep before the k-th re-fetch is `retry_limit - remaining_retries`, i.e.
the recorded sleep trace over a run with `nf` fetches is exactly
`[0, 1, ..., nf - 2]` — starting at 0 and growing by one per retry; with
waiting disabled the trace is empty. -/
theorem c7_backoff_linear (fetchAt : Nat → Except Unit String) (rl : Nat) (w : Bool)
    (t : Task V) (cache : Cache V) (res : Url × Option V) (c' : Cache V)
    (sleeps : List Nat) (nf : Nat)
    (h : execute fetchAt rl w t cache = .ok (res, c', sleeps, nf)) :
    (w = true → sleeps = List.range (nf - 1)) ∧ (w = false → sleeps = []) := by
  obtain ⟨html, live, m, hf, hl, hnf, -⟩ :=
    execute_ok_inv fetchAt rl w t cache res c' sleeps nf h
  have hs := attemptLoop_sleeps fetchAt t.func rl w rl 1 (t.func html) live sleeps m le_rfl hl
  subst hnf
  constructor
  · intro hw
    subst hw
    rw [hs]
    simp [List.range_eq_range']
  · intro hw
    subst hw
    simpa using hs

/-- Concrete inputs for the C7 witness: an extractor that always returns
absent, so that both retries run and sleep. -/
def taskC7 : Task Nat := ⟨"u", "f", fun _ => none⟩

def fetchC7 : Nat → Except Unit String := fun _ => .ok "x"

/-- Witness for C7: a concrete run with `retry_limit = 2` whose sleep
trace is `[0, 1]`. -/
theorem c7_witness :
    (execute fetchC7 2 true taskC7 [] =
      .ok (("u", none), ([] : Cache Nat), [0, 1], 3)) ∧
    ((true = true → [0, 1] = List.range (3 - 1)) ∧
      (true = false → ([0, 1] : List Nat) = [])) :=
  ⟨rfl, c7_backoff_linear fetchC7 2 true taskC7 [] ("u", none) [] [0, 1] 3 rfl⟩

/-- C8: `RateLimit(s, m, h, d)` yields a pause of
`s + 60 m + 3600 h + 86400 d` seconds (so `RateLimit(1,1,1,1)` gives
90061), and constructing the engine without a rate limit defaults to 60
seconds. -/
theorem c8_rate_limit_arithmetic (s mi hrs dys rl : Nat) (w : Bool)
    (cf : Option String) (fs : Fs Nat) :
    (initEngine (V := Nat) (some ⟨s, mi, hrs, dys⟩) rl w cf fs).rate_limit =
      s + 60 * mi + 3600 * hrs + 86400 * dys ∧
    (initEngine (V := Nat) none rl w cf fs).rate_limit = 60 ∧
    rateLimitSeconds (some ⟨1, 1, 1, 1⟩) = 90061 := by
  refine ⟨?_, ?_, rfl⟩
  · have hre : (initEngine (V := Nat) (some ⟨s, mi, hrs, dys⟩) rl w cf fs).rate_limit =
        rateLimitSeconds (some ⟨s, mi, hrs, dys⟩) := by
      rw [initEngine, read_cache_file_rate_limit]
    rw [hre]
    simp only [rateLimitSeconds]
  · rw [initEngine, read_cache_file_rate_limit]
    rfl

/-- The engine used by the C9 counterexample. -/
def engC9 : Engine Nat :=
  { tasks := [], retry_limit := 5, wait_between_retries := true,
    cache_file := none, rate_limit := 60, cache := [] }

/-- C9, counterexample to the claim as stated: with one poller already
running, starting another via either entry point succeeds (`.ok`, so no
`MisuseError` is raised) and the number of live polling loops becomes
two. -/
theorem c9_counterexample :
    get_continuous_new engC9 1 = .ok (engC9, 2) ∧
    get_continuous_all engC9 1 = .ok (engC9, 2) := ⟨rfl, rfl⟩

/-- C9 (amended): the source never checks whether a poller is running:
`get_continuous_new` and `get_continuous_all` always succeed and silently
start one more polling loop on the same engine instance. -/
theorem c9_start_never_fails (eng : Engine V) (runningPollers : Nat) :
    get_continuous_new eng runningPollers = .ok (eng, runningPollers + 1) ∧
    get_continuous_all eng runningPollers = .ok (eng, runningPollers + 1) := ⟨rfl, rfl⟩

/-- C10: `execute` performs at most `retry_limit + 1` fetch-extract
attempts; every attempt before the last extracted absent (the loop stops
at the first non-absent extraction); and if every attempt extracts absent
it returns `(url, absent)` after exactly `retry_limit + 1` attempts
without touching the cache. -/
theorem c10_retry_bound (fetchAt : Nat → Except Unit String) (rl : Nat) (w : Bool)
    (t : Task V) (cache : Cache V) (res : Url × Option V) (c' : Cache V)
    (sleeps : List Nat) (nf : Nat)
    (h : execute fetchAt rl w t cache = .ok (res, c', sleeps, nf)) :
    nf ≤ rl + 1 ∧
    (∀ k, k + 1 < nf → Except.map t.func (fetchAt k) = .ok none) ∧
    ((∀ k, Except.map t.func (fetchAt k) = .ok none) →
      res = (t.url, none) ∧ c' = cache ∧ nf = rl + 1) := by
  obtain ⟨html, live, m, hf, hl, hnf, hbr⟩ :=
    execute_ok_inv fetchAt rl w t cache res c' sleeps nf h
  have hcount := attemptLoop_count fetchAt t.func rl w rl 1 (t.func html) live sleeps m hl
  obtain ⟨hfirst, hbefore⟩ :=
    attemptLoop_absent_before fetchAt t.func rl w rl 1 (t.func html) live sleeps m hl
  refine ⟨by omega, ?_, ?_⟩
  · intro k hk
    cases k with
    | zero =>
      have hfn : t.func html = none := hfirst (by omega)
      simp [hf, Except.map, hfn]
    | succ j =>
      have hj := hbefore j (by omega)
      have harith : 1 + j = j + 1 := by omega
      rw [harith] at hj
      exact hj
  · intro hall
    have h0 := hall 0
    rw [hf] at h0
    simp only [Except.map, Except.ok.injEq] at h0
    obtain ⟨s', hs'⟩ := attemptLoop_all_absent fetchAt t.func rl w hall rl 1
    rw [h0] at hl
    rw [hl] at hs'
    simp only [Except.ok.injEq, Prod.mk.injEq] at hs'
    obtain ⟨hlive, -, hm⟩ := hs'
    rcases hbr with ⟨hne, hsome, hres, hc⟩ | ⟨-, hres, hc⟩
    · exact absurd hlive hsome
    · exact ⟨hres, hc, by omega⟩

/-- Concrete inputs for the C10 witness: the extractor never succeeds. -/
def taskC10 : Task Nat := ⟨"u", "f", fun _ => none⟩

def fetchC10 : Nat → Except Unit String := fun _ => .ok "x"

/-- Witness for C10: a concrete all-absent run with `retry_limit = 1`
performing exactly 2 attempts and leaving the cache untouched. -/
theorem c10_witness :
    (execute fetchC10 1 false taskC10 [] =
      .ok (("u", none), ([] : Cache Nat), [], 2)) ∧
    (2 ≤ 1 + 1 ∧
      (∀ k, k + 1 < 2 → Except.map taskC10.func (fetchC10 k) = .ok none) ∧
      ((∀ k, Except.map taskC10.func (fetchC10 k) = .ok none) →
        (("u", none) : Url × Option Nat) = (taskC10.url, none) ∧
        ([] : Cache Nat) = [] ∧ 2 = 1 + 1)) :=
  ⟨rfl, c10_retry_bound fetchC10 1 false taskC10 [] ("u", none) [] [] 2 rfl⟩

end WebDelta
